import Mathlib

set_option maxRecDepth 100000

/-!
Verification of the gravity-bridge module sources: the checkpoint codec
(`x/gravity/types/batch.go`), the confirmation model
(`x/gravity/types/confirm.go`) and the outgoing transfer pool keeper
(`x/gravity/keeper`, send-to-Ethereum pool).

Machine integers are modelled as `Nat` with explicit `% 2 ^ w` at the points
where the Go code converts or may overflow.  Byte strings are `List Nat`
(each element `< 256`).
-/

/-! ### Byte-level utilities -/

/-- Big-endian byte encoding of `x` into exactly `k` bytes (`x` taken mod `2^(8k)`).
Mirrors `big.Int.FillBytes` / `sdk.Uint64ToBigEndian` style fixed-width encodings. -/
def beBytes (k x : Nat) : List Nat :=
  (List.range k).map (fun i => x / 256 ^ (k - 1 - i) % 256)

/-- Little-endian byte encoding of `x` into `k` bytes (used by the Keccak sponge). -/
def leBytes (k x : Nat) : List Nat :=
  (List.range k).map (fun i => x / 256 ^ i % 256)

/-- Interpret a byte list as a big-endian natural number (`common.Address.SetBytes`
keeps the last 20 bytes, which is `% 2^160` of this value). -/
def bytesToNat (bs : List Nat) : Nat :=
  bs.foldl (fun a b => a * 256 + b) 0

/-- UTF-8 encoding of a single Unicode code point, as Go produces for `[]byte(s)`. -/
def utf8Char (n : Nat) : List Nat :=
  if n < 0x80 then [n]
  else if n < 0x800 then [0xC0 + n / 64, 0x80 + n % 64]
  else if n < 0x10000 then [0xE0 + n / 4096, 0x80 + n / 64 % 64, 0x80 + n % 64]
  else [0xF0 + n / 262144, 0x80 + n / 4096 % 64, 0x80 + n / 64 % 64, 0x80 + n % 64]

/-- UTF-8 bytes of a string: Go's `[]byte(s)`. -/
def utf8Bytes (s : String) : List Nat :=
  (s.data.map (fun c => utf8Char c.toNat)).flatten

/-! ### Keccak-256 (as used by `crypto.Keccak256Hash` from go-ethereum) -/

/-- 64-bit left rotation on a lane value `< 2^64`. -/
def rotl64 (x n : Nat) : Nat :=
  (x % 2 ^ (64 - n)) * 2 ^ n + x / 2 ^ (64 - n)

/-- List lookup defaulting to `0`; Keccak state lanes are addressed `x + 5*y`. -/
def lget (l : List Nat) (i : Nat) : Nat := l.getD i 0

/-- The 24 Keccak-f[1600] round constants. -/
def keccakRC : List Nat :=
  ([[1, 32898, 9223372036854808714],
    [9223372039002292224, 32907, 2147483649],
    [9223372039002292353, 9223372036854808585, 138],
    [136, 2147516425, 2147483658],
    [2147516555, 9223372036854775947, 9223372036854808713],
    [9223372036854808579, 9223372036854808578, 9223372036854775936],
    [32778, 9223372039002259466, 9223372039002292353],
    [9223372036854808704, 2147483649, 9223372039002292232]]).flatten

/-- Keccak rotation offsets, indexed by lane `x + 5*y`. -/
def keccakRot : List Nat :=
  ([[0, 1, 62, 28, 27],
    [36, 44, 6, 55, 20],
    [3, 10, 43, 25, 39],
    [41, 45, 15, 21, 8],
    [18, 2, 61, 56, 14]]).flatten

/-- Keccak θ step. -/
def keccakTheta (A : List Nat) : List Nat :=
  let C := (List.range 5).map
    (fun x => lget A x ^^^ lget A (x + 5) ^^^ lget A (x + 10) ^^^ lget A (x + 15) ^^^ lget A (x + 20))
  let D := (List.range 5).map (fun x => lget C ((x + 4) % 5) ^^^ rotl64 (lget C ((x + 1) % 5)) 1)
  (List.range 25).map (fun i => lget A i ^^^ lget D (i % 5))

/-- Keccak ρ and π steps: `B[y, (2x+3y) mod 5] = rotl(A[x, y], r[x, y])`. -/
def keccakRhoPi (A : List Nat) : List Nat :=
  (List.range 25).map (fun j =>
    let y := j % 5
    let x := 3 * (j / 5 + 15 - 3 * y) % 5
    rotl64 (lget A (x + 5 * y)) (lget keccakRot (x + 5 * y)))

/-- Keccak χ step. -/
def keccakChi (B : List Nat) : List Nat :=
  (List.range 25).map (fun j =>
    let x := j % 5
    let y := j / 5
    lget B j ^^^ ((lget B ((x + 1) % 5 + 5 * y) ^^^ (2 ^ 64 - 1)) &&& lget B ((x + 2) % 5 + 5 * y)))

/-- Keccak ι step for one round constant. -/
def keccakIota (C : List Nat) (rc : Nat) : List Nat :=
  (List.range 25).map (fun i => if i = 0 then lget C 0 ^^^ rc else lget C i)

/-- One round of Keccak-f[1600]. -/
def keccakRound (A : List Nat) (rc : Nat) : List Nat :=
  keccakIota (keccakChi (keccakRhoPi (keccakTheta A))) rc

/-- The Keccak-f[1600] permutation (24 rounds). -/
def keccakF (A : List Nat) : List Nat :=
  keccakRC.foldl keccakRound A

/-- Legacy Keccak padding (`0x01 … 0x80`), as used by Ethereum's Keccak-256
(not the SHA3 `0x06` domain bits). -/
def keccakPad (len : Nat) : List Nat :=
  let q := 136 - len % 136
  if q = 1 then [0x81] else 0x01 :: (List.replicate (q - 2) 0 ++ [0x80])

/-- Split a byte list into 136-byte rate blocks (structural recursion on a fuel
bound so the definition reduces in the kernel). -/
def splitBlocksAux : Nat → List Nat → List (List Nat)
  | 0, _ => []
  | fuel + 1, l => if l.length = 0 then [] else l.take 136 :: splitBlocksAux fuel (l.drop 136)

/-- Split a byte list into 136-byte rate blocks. -/
def splitBlocks (l : List Nat) : List (List Nat) :=
  splitBlocksAux l.length l

/-- Interpret (up to) 8 bytes as a little-endian 64-bit lane. -/
def leLane (bs : List Nat) : Nat :=
  bs.foldr (fun b acc => b + 256 * acc) 0

/-- Absorb one 136-byte block into the sponge state and permute. -/
def absorbBlock (A : List Nat) (blk : List Nat) : List Nat :=
  keccakF ((List.range 25).map
    (fun i => lget A i ^^^ (if i < 17 then leLane ((blk.drop (8 * i)).take 8) else 0)))

/-- Keccak-256 of a byte string: pad, absorb all rate blocks, squeeze 32 bytes. -/
def keccak256 (msg : List Nat) : List Nat :=
  (((((splitBlocks (msg ++ keccakPad msg.length)).foldl absorbBlock
      (List.replicate 25 0)).take 4).map (leBytes 8))).flatten

/-! ### Ethereum contract-call ABI encoding (go-ethereum `abi.Pack`)

A packed argument is either a 32-byte static word placed in the head section,
or a dynamic blob placed in the tail section with a 32-byte offset word (from
the start of the argument area) in the head section. -/

/-- One argument of an ABI-encoded tuple. -/
inductive AbiArg where
  | static (w : List Nat)
  | dynamic (bs : List Nat)

/-- Head and tail sections for an argument list; `off` is the byte offset (from
the start of the argument area) at which the next dynamic tail will land. -/
def abiHeadTail : List AbiArg → Nat → List Nat × List Nat
  | [], _ => ([], [])
  | .static w :: rest, off =>
      (w ++ (abiHeadTail rest off).1, (abiHeadTail rest off).2)
  | .dynamic b :: rest, off =>
      (beBytes 32 off ++ (abiHeadTail rest (off + b.length)).1,
       b ++ (abiHeadTail rest (off + b.length)).2)

/-- The ABI encoding of an argument tuple (head section then tail section;
the first tail lands right after the `32 * n` bytes of head words). -/
def abiEncodeArgs (args : List AbiArg) : List Nat :=
  (abiHeadTail args (32 * args.length)).1 ++ (abiHeadTail args (32 * args.length)).2

/-- The 4-byte function selector: first 4 bytes of the Keccak-256 hash of the
canonical method signature. -/
def abiSelector (sig : String) : List Nat :=
  (keccak256 (utf8Bytes sig)).take 4

/-- go-ethereum `abi.Pack`: selector followed by the encoded argument tuple. -/
def abiPack (sig : String) (args : List AbiArg) : List Nat :=
  abiSelector sig ++ abiEncodeArgs args

/-- A `*big.Int` packed as a `uint256` word (go-ethereum wraps mod `2^256`). -/
def uint256Word (x : Nat) : List Nat := beBytes 32 (x % 2 ^ 256)

/-- An address packed as a left-padded 32-byte word. -/
def addressWord (a : Nat) : List Nat := beBytes 32 (a % 2 ^ 160)

/-- The `uint256[]` tail encoding: length word, then one word per element. -/
def uint256ArrayEnc (xs : List Nat) : List Nat :=
  beBytes 32 xs.length ++ (xs.map uint256Word).flatten

/-- The `address[]` tail encoding: length word, then one word per element. -/
def addressArrayEnc (xs : List Nat) : List Nat :=
  beBytes 32 xs.length ++ (xs.map addressWord).flatten

/-- The `bytes` tail encoding: length word, then the data zero-padded to a
multiple of 32 bytes. -/
def bytesEnc (bs : List Nat) : List Nat :=
  beBytes 32 bs.length ++ bs ++ List.replicate ((32 - bs.length % 32) % 32) 0

/-- Go's `int64(n)` applied to a `uint64` value: two's-complement
reinterpretation of the low 64 bits. -/
def int64OfUint64 (n : Nat) : Int :=
  if n % 2 ^ 64 < 2 ^ 63 then ((n % 2 ^ 64 : Nat) : Int) else ((n % 2 ^ 64 : Nat) : Int) - 2 ^ 64

/-- The `big.NewInt(int64(n))` packed as a `uint256` word: go-ethereum wraps the
(possibly negative) integer mod `2^256`. -/
def uint64Word (n : Nat) : List Nat :=
  beBytes 32 (int64OfUint64 n % 2 ^ 256).toNat

/-! ### Hex strings and addresses (`encoding/hex`, go-ethereum `common`) -/

/-- Value of a single hexadecimal digit. -/
def hexDigitVal (c : Char) : Option Nat :=
  if '0' ≤ c ∧ c ≤ '9' then some (c.toNat - '0'.toNat)
  else if 'a' ≤ c ∧ c ≤ 'f' then some (c.toNat - 'a'.toNat + 10)
  else if 'A' ≤ c ∧ c ≤ 'F' then some (c.toNat - 'A'.toNat + 10)
  else none

/-- Go `hex.DecodeString` partial-decode semantics: decode byte pairs until the
first invalid digit or odd tail (go-ethereum `Hex2Bytes` discards the error and
keeps the bytes decoded so far). -/
def decodeHexPartial : List Char → List Nat
  | c1 :: c2 :: rest =>
      match hexDigitVal c1, hexDigitVal c2 with
      | some h, some l => (16 * h + l) :: decodeHexPartial rest
      | _, _ => []
  | _ => []

/-- Go `hex.DecodeString` succeeds iff the string has even length and contains
only hexadecimal digits. -/
def hexDecodeOk (s : String) : Bool :=
  s.data.length % 2 = 0 && s.data.all (fun c => (hexDigitVal c).isSome)

/-- go-ethereum `common.FromHex`: strip an optional `0x`, left-pad odd-length
input with `0`, decode. -/
def fromHex (s : String) : List Nat :=
  let cs := if s.data.take 2 = ['0', 'x'] ∨ s.data.take 2 = ['0', 'X'] then s.data.drop 2 else s.data
  let cs' := if cs.length % 2 = 1 then '0' :: cs else cs
  decodeHexPartial cs'

/-- go-ethereum `common.HexToAddress`: the decoded bytes cropped to their last
20 bytes (`Address.SetBytes`), as a 160-bit value. -/
def hexToAddress (s : String) : Nat :=
  bytesToNat (fromHex s) % 2 ^ 160

/-! ### Checkpoint codec data model (`x/gravity/types`) -/

/-- Result of running a Go function that may return an error or abort the
process. -/
inductive GoResult (α : Type) where
  | ok (val : α)
  | err (msg : String)
  | panics
deriving DecidableEq

/-- The `ERC20Token`: an amount of a destination-chain contract's asset. -/
structure ERC20Token where
  amount : Nat
  contract : String
deriving DecidableEq

/-- The `SendToEthereum`: one pooled outgoing transfer (also the element type of
`BatchTx.Transactions`). -/
structure SendToEthereum where
  id : Nat
  sender : String
  ethereumRecipient : String
  erc20Token : ERC20Token
  erc20Fee : ERC20Token
deriving DecidableEq

/-- The `BatchTx`: an outgoing transfer batch artifact. -/
structure BatchTx where
  nonce : Nat
  timeout : Nat
  transactions : List SendToEthereum
  tokenContract : String

/-- The `sdk.Coin`: an amount of a denomination. -/
structure Coin where
  denom : String
  amount : Nat
deriving DecidableEq

/-- The `LogicCallTx`: an outgoing generic call artifact (`Tokens` and `Fees` are
`sdk.Coin`s whose `Denom` holds the contract hex string). -/
structure LogicCallTx where
  tokens : List Coin
  fees : List Coin
  logicContractAddress : String
  payload : List Nat
  timeout : Nat
  invalidationId : List Nat
  invalidationNonce : Nat

/-- Modelled from the spec: `strToFixByteArray` (defined elsewhere in the
repository's `types` package; only its callers are under `src/`).  Per §4.1
step 1 it checks that the chain identifier fits in a fixed 32-byte field under
its natural (UTF-8) encoding, failing otherwise, and zero-pads the bytes to
32. -/
def strToFixByteArray (s : String) : GoResult (List Nat) :=
  let bs := utf8Bytes s
  if bs.length > 32 then .err "string too long"
  else .ok (bs ++ List.replicate (32 - bs.length) 0)

/-- Go `copy(name[:], bs)` into a fresh fixed `[32]uint8` array. -/
def fixed32 (bs : List Nat) : List Nat :=
  (bs ++ List.replicate 32 0).take 32

/-- The constant domain tag salted into batch checkpoints
(`methodNameBytes := []uint8("transactionBatch")`). -/
def batchDomainTag : List Nat := fixed32 (utf8Bytes "transactionBatch")

/-- The constant domain tag salted into logic-call checkpoints
(`methodNameBytes := []uint8("logicCall")`). -/
def logicCallDomainTag : List Nat := fixed32 (utf8Bytes "logicCall")

/-- The method signature whose selector `abi.Pack("submitBatch", ...)`
prepends (and `GetCheckpoint` discards). -/
def submitBatchSig : String :=
  "submitBatch(bytes32,bytes32,uint256[],address[],uint256[],uint256,address,uint256)"

/-- The method signature whose selector `abi.Pack("checkpoint", ...)` prepends
for logic calls (and `GetCheckpoint` discards). -/
def logicCallSig : String :=
  "checkpoint(bytes32,bytes32,uint256[],address[],uint256[],address[],address,bytes,uint256,bytes32,uint256)"

/-- The argument tuple `BatchTx.GetCheckpoint` passes to
`abi.Pack("submitBatch", ...)`, in source order. -/
def batchCheckpointArgs (gravityID : List Nat) (b : BatchTx) : List AbiArg :=
  [.static gravityID,
   .static batchDomainTag,
   .dynamic (uint256ArrayEnc (b.transactions.map (fun tx => tx.erc20Token.amount))),
   .dynamic (addressArrayEnc (b.transactions.map (fun tx => hexToAddress tx.ethereumRecipient))),
   .dynamic (uint256ArrayEnc (b.transactions.map (fun tx => tx.erc20Fee.amount))),
   .static (uint64Word b.nonce),
   .static (addressWord (hexToAddress b.tokenContract)),
   .static (uint64Word b.timeout)]

/-- The `BatchTx.GetCheckpoint` from `x/gravity/types/batch.go`: fix the gravity id
into 32 bytes (panicking when it does not fit), ABI-pack the checkpoint tuple,
discard the 4 selector bytes and hash with Keccak-256. -/
def BatchTx.GetCheckpoint (b : BatchTx) (gravityIDstring : String) : GoResult (List Nat) :=
  match strToFixByteArray gravityIDstring with
  | .ok gravityID =>
      .ok (keccak256 ((abiPack submitBatchSig (batchCheckpointArgs gravityID b)).drop 4))
  | _ => .panics

/-- The argument tuple `LogicCallTx.GetCheckpoint` passes to
`abi.Pack("checkpoint", ...)`, in source order. -/
def logicCallCheckpointArgs (gravityID : List Nat) (c : LogicCallTx) : List AbiArg :=
  [.static gravityID,
   .static logicCallDomainTag,
   .dynamic (uint256ArrayEnc (c.tokens.map (fun t => t.amount))),
   .dynamic (addressArrayEnc (c.tokens.map (fun t => hexToAddress t.denom))),
   .dynamic (uint256ArrayEnc (c.fees.map (fun t => t.amount))),
   .dynamic (addressArrayEnc (c.fees.map (fun t => hexToAddress t.denom))),
   .static (addressWord (hexToAddress c.logicContractAddress)),
   .dynamic (bytesEnc c.payload),
   .static (uint64Word c.timeout),
   .static (fixed32 c.invalidationId),
   .static (uint64Word c.invalidationNonce)]

/-- The `LogicCallTx.GetCheckpoint` from `x/gravity/types/batch.go`. -/
def LogicCallTx.GetCheckpoint (c : LogicCallTx) (gravityIDstring : String) : GoResult (List Nat) :=
  match strToFixByteArray gravityIDstring with
  | .ok gravityID =>
      .ok (keccak256 ((abiPack logicCallSig (logicCallCheckpointArgs gravityID c)).drop 4))
  | _ => .panics

/-! ### Bech32 account addresses

`sdk.AccAddressFromBech32` lives in the external cosmos-sdk collaborator; it
is modelled here after the reference bech32 algorithm it delegates to
(btcutil): charset decode, checksum verification, 5-to-8 bit regrouping, and
the sdk's account-prefix and 20-byte length checks. -/

/-- The bech32 data character set. -/
def bech32Charset : List Char := "qpzry9x8gf2tvdw0s3jn54khce6mua7l".data

/-- Value of one bech32 data character. -/
def bech32CharVal (c : Char) : Option Nat :=
  bech32Charset.findIdx? (fun d => d = c)

/-- The bech32 checksum generator constants. -/
def bech32Gen : List Nat := [0x3b6a57b2, 0x26508e6d, 0x1ea119fa, 0x3d4233dd, 0x2a1462b3]

/-- One step of the bech32 checksum LFSR. -/
def bech32PolymodStep (chk v : Nat) : Nat :=
  let b := chk >>> 25
  let chk' := ((chk &&& 0x1ffffff) <<< 5) ^^^ v
  (List.range 5).foldl (fun acc i => if (b >>> i) &&& 1 = 1 then acc ^^^ lget bech32Gen i else acc) chk'

/-- The bech32 polymod checksum over a list of 5-bit values. -/
def bech32Polymod (values : List Nat) : Nat :=
  values.foldl bech32PolymodStep 1

/-- Human-readable-part expansion for checksumming. -/
def bech32HrpExpand (hrp : List Char) : List Nat :=
  hrp.map (fun c => c.toNat >>> 5) ++ [0] ++ hrp.map (fun c => c.toNat &&& 31)

/-- Regroup 5-bit values into 8-bit bytes with strict padding rules
(`convertbits(data, 5, 8, pad=false)`). -/
def convertFiveToEight (data : List Nat) : Option (List Nat) :=
  let st := data.foldl
    (fun (st : List Nat × Nat × Nat) v =>
      let acc := ((st.2.1 <<< 5) ||| v) &&& 0xfff
      let bits := st.2.2 + 5
      if 8 ≤ bits then (st.1 ++ [acc >>> (bits - 8) &&& 0xff], acc, bits - 8)
      else (st.1, acc, bits))
    ([], 0, 0)
  if 5 ≤ st.2.2 ∨ st.2.1 <<< (8 - st.2.2) &&& 0xff ≠ 0 then none else some st.1

/-- Index of the last `'1'` separator in a bech32 string. -/
def bech32SeparatorIdx (cs : List Char) : Option Nat :=
  match cs.reverse.findIdx? (fun c => c = '1') with
  | none => none
  | some k => some (cs.length - 1 - k)

/-- Decode a bech32 string into its human-readable part and 8-bit payload:
length and case checks, separator split, charset decode, checksum
verification, bit regrouping. -/
def bech32Decode (s : String) : Option (List Char × List Nat) :=
  let cs := s.data
  if cs.any (fun c => c.isUpper) ∧ cs.any (fun c => c.isLower) then none
  else
    let low := cs.map Char.toLower
    if 90 < low.length then none
    else
      match bech32SeparatorIdx low with
      | none => none
      | some pos =>
        if pos < 1 ∨ low.length < pos + 7 then none
        else
          let hrp := low.take pos
          let dataChars := low.drop (pos + 1)
          match dataChars.mapM bech32CharVal with
          | none => none
          | some vals =>
            if bech32Polymod (bech32HrpExpand hrp ++ vals) ≠ 1 then none
            else
              match convertFiveToEight (vals.take (vals.length - 6)) with
              | none => none
              | some bytes => some (hrp, bytes)

/-- Models `sdk.AccAddressFromBech32` (external cosmos-sdk): bech32 decode
with checksum, human-readable part equal to the configured account prefix
(`"cosmos"`, the sdk default), and a 20-byte payload (`VerifyAddressFormat`). -/
def accAddressFromBech32Ok (s : String) : Bool :=
  match bech32Decode s with
  | some (hrp, bytes) => hrp == "cosmos".data && bytes.length == 20
  | none => false

/-- Modelled from the spec: `ValidateEthAddress` (in the repository's `types`
package; only its callers are under `src/`).  §4.2: an Ethereum-style address
must be well-formed 20-byte hex, i.e. `0x` followed by exactly 40 hexadecimal
digits. -/
def ValidateEthAddressOk (s : String) : Bool :=
  s.data.length == 42 && s.data.take 2 == ['0', 'x']
    && (s.data.drop 2).all (fun c => (hexDigitVal c).isSome)

/-! ### Confirmation model (`x/gravity/types/confirm.go`) -/

/-- The distinct error wrap sites of the `Validate` methods in `confirm.go`. -/
inductive ConfirmErr where
  | invalidOrchestratorAddress
  | invalidEthSigner
  | invalidTokenContract
  | invalidSignatureHex
  | invalidInvalidationIdHex
  | invalidEthAddress
deriving DecidableEq

/-- The `ConfirmBatch` message. -/
structure ConfirmBatch where
  nonce : Nat
  tokenContract : String
  ethSigner : String
  orchestratorAddress : String
  signature : String

/-- The `ConfirmBatch.Validate`: orchestrator bech32 address, eth signer, token
contract, then hex-decodability of the signature. `none` is success. -/
def ConfirmBatch.Validate (msg : ConfirmBatch) : Option ConfirmErr :=
  if ¬ accAddressFromBech32Ok msg.orchestratorAddress then some .invalidOrchestratorAddress
  else if ¬ ValidateEthAddressOk msg.ethSigner then some .invalidEthSigner
  else if ¬ ValidateEthAddressOk msg.tokenContract then some .invalidTokenContract
  else if ¬ hexDecodeOk msg.signature then some .invalidSignatureHex
  else none

/-- The `ConfirmBatch.GetType`. -/
def ConfirmBatch.GetType (_ : ConfirmBatch) : String := "batch"

/-- Proto-generated getter for the real `Nonce` field. -/
def ConfirmBatch.GetNonce (msg : ConfirmBatch) : Nat := msg.nonce

/-- The `ConfirmBatch.GetInvalidationNonce`: "a noop to implement confirm
interface". -/
def ConfirmBatch.GetInvalidationNonce (_ : ConfirmBatch) : Nat := 0

/-- The `ConfirmBatch.GetInvalidationId`: "a noop to implement confirm
interface". -/
def ConfirmBatch.GetInvalidationId (_ : ConfirmBatch) : String := ""

/-- The `ConfirmLogicCall` message. -/
structure ConfirmLogicCall where
  invalidationId : String
  invalidationNonce : Nat
  ethSigner : String
  orchestratorAddress : String
  signature : String

/-- The `ConfirmLogicCall.Validate`: orchestrator bech32 address, eth signer,
hex-decodability of the signature, hex-decodability of the invalidation id. -/
def ConfirmLogicCall.Validate (msg : ConfirmLogicCall) : Option ConfirmErr :=
  if ¬ accAddressFromBech32Ok msg.orchestratorAddress then some .invalidOrchestratorAddress
  else if ¬ ValidateEthAddressOk msg.ethSigner then some .invalidEthSigner
  else if ¬ hexDecodeOk msg.signature then some .invalidSignatureHex
  else if ¬ hexDecodeOk msg.invalidationId then some .invalidInvalidationIdHex
  else none

/-- The `ConfirmLogicCall.GetType`. -/
def ConfirmLogicCall.GetType (_ : ConfirmLogicCall) : String := "logic_Call"

/-- The `ConfirmLogicCall.GetNonce`: returns a bare `0` (the variant has no
nonce field). -/
def ConfirmLogicCall.GetNonce (_ : ConfirmLogicCall) : Nat := 0

/-- The `ConfirmLogicCall.GetTokenContract`: returns `""`. -/
def ConfirmLogicCall.GetTokenContract (_ : ConfirmLogicCall) : String := ""

/-- Proto-generated getter for the real `InvalidationNonce` field. -/
def ConfirmLogicCall.GetInvalidationNonce (msg : ConfirmLogicCall) : Nat := msg.invalidationNonce

/-- The `ConfirmValset` message. -/
structure ConfirmValset where
  nonce : Nat
  orchestratorAddress : String
  ethAddress : String
  signature : String

/-- The `ConfirmValset.Validate`: orchestrator bech32 address and ethereum
address only — the signature field is never examined. -/
def ConfirmValset.Validate (msg : ConfirmValset) : Option ConfirmErr :=
  if ¬ accAddressFromBech32Ok msg.orchestratorAddress then some .invalidOrchestratorAddress
  else if ¬ ValidateEthAddressOk msg.ethAddress then some .invalidEthAddress
  else none

/-- The `ConfirmValset.GetType`. -/
def ConfirmValset.GetType (_ : ConfirmValset) : String := "valset"

/-- Proto-generated getter for the real `Nonce` field. -/
def ConfirmValset.GetNonce (msg : ConfirmValset) : Nat := msg.nonce

/-- The `ConfirmValset.GetInvalidationNonce`: "a noop to implement confirm
interface". -/
def ConfirmValset.GetInvalidationNonce (_ : ConfirmValset) : Nat := 0

/-- The `ConfirmValset.GetInvalidationId`: "a noop to implement confirm
interface". -/
def ConfirmValset.GetInvalidationId (_ : ConfirmValset) : String := ""

/-! ### Outgoing transfer pool (`x/gravity/keeper`) -/

/-- One entry of the custody ledger's registered asset mapping (spec §6
`lookupAsset`): a denomination, its destination-chain contract, and whether
the asset originates on the source chain. -/
structure RegEntry where
  denom : String
  contract : String
  cosmosOriginated : Bool

/-- Modelled from the spec: `Keeper.DenomToERC20Lookup` (only its caller is
under `src/`) — §4.3 step 2's lookup against the custody ledger's registered
asset mapping; unresolvable denominations fail. -/
def DenomToERC20Lookup (reg : List RegEntry) (denom : String) : Option (Bool × String) :=
  match reg.find? (fun e => e.denom == denom) with
  | some e => some (e.cosmosOriginated, e.contract)
  | none => none

/-- Modelled from the spec: `Keeper.ERC20ToDenomLookup` (only its caller is
under `src/`) — the reverse registry lookup; an unregistered contract is a
foreign-originated voucher whose denomination derives from the contract. -/
def ERC20ToDenomLookup (reg : List RegEntry) (contract : String) : Bool × String :=
  match reg.find? (fun e => e.contract == contract) with
  | some e => (e.cosmosOriginated, e.denom)
  | none => (false, "gravity" ++ contract)

/-- Modelled from the spec: `ERC20Token.GravityCoin` (in the repository's
`types` package; only its caller is under `src/`) — the token's amount in the
denomination the registry associates with its contract; §4.3 cancel step 2
refunds the custodied asset itself. -/
def ERC20Token.GravityCoin (t : ERC20Token) (reg : List RegEntry) : Coin :=
  ⟨(ERC20ToDenomLookup reg t.contract).2, t.amount⟩

/-- The `types.NewSDKIntERC20Token` (trivial constructor in the repository's
`types` package). -/
def NewSDKIntERC20Token (amount : Nat) (contract : String) : ERC20Token :=
  ⟨amount, contract⟩

/-- The module account name (`types.ModuleName`). -/
def ModuleName : String := "gravity"

/-- Custody-ledger balances: account → denomination → amount. -/
abbrev Bank := String → String → Nat

/-- Point update of one balance. -/
def bankSet (bk : Bank) (acct denom : String) (amt : Nat) : Bank :=
  fun a d => if a = acct ∧ d = denom then amt else bk a d

/-- Atomic single-coin transfer of the external custody ledger (spec §6):
fails (state unchanged) iff the source balance is insufficient.  All keeper
call sites pass a singleton coin list, so the multi-coin `sdk.Coins` wrappers
collapse to this (a zero amount moves nothing, exactly as `sdk.NewCoins`'
zero-filtering does). -/
def bankTransfer (bk : Bank) (src dst : String) (c : Coin) : Option Bank :=
  if bk src c.denom < c.amount then none
  else
    let bk1 := bankSet bk src c.denom (bk src c.denom - c.amount)
    some (bankSet bk1 dst c.denom (bk1 dst c.denom + c.amount))

/-- The `bankKeeper.SendCoinsFromAccountToModule`. -/
def sendCoinsFromAccountToModule (bk : Bank) (sender : String) (c : Coin) : Option Bank :=
  bankTransfer bk sender ModuleName c

/-- The `bankKeeper.SendCoinsFromModuleToAccount`. -/
def sendCoinsFromModuleToAccount (bk : Bank) (recipient : String) (c : Coin) : Option Bank :=
  bankTransfer bk ModuleName recipient c

/-- The `bankKeeper.MintCoins`: creates the amount in the module account. -/
def mintCoins (bk : Bank) (c : Coin) : Bank :=
  bankSet bk ModuleName c.denom (bk ModuleName c.denom + c.amount)

/-- The `bankKeeper.BurnCoins`: destroys the amount from the module account,
failing when the module balance is insufficient. -/
def burnCoins (bk : Bank) (c : Coin) : Option Bank :=
  if bk ModuleName c.denom < c.amount then none
  else some (bankSet bk ModuleName c.denom (bk ModuleName c.denom - c.amount))

/-- Modelled from the spec: the composite store key of a pending request,
(destination-contract, fee, id) (§6, §9).  The fixed-width big-endian byte
key built by `types.GetSendToEthereumKey` (not under `src/`) orders
identically to this triple under lexicographic comparison, the contract as
its 20-byte `common.Address` value. -/
structure PoolKey where
  contract : Nat
  feeAmount : Nat
  id : Nat
deriving DecidableEq

/-- The `types.GetSendToEthereumKey` as a pool key. -/
def GetSendToEthereumKey (id : Nat) (fee : ERC20Token) : PoolKey :=
  ⟨hexToAddress fee.contract, fee.amount, id⟩

/-- Lexicographic (byte) order on pool keys. -/
def PoolKey.leb (a b : PoolKey) : Bool :=
  a.contract < b.contract ∨
    (a.contract = b.contract ∧
      (a.feeAmount < b.feeAmount ∨ (a.feeAmount = b.feeAmount ∧ a.id ≤ b.id)))

/-- The ordered key-value store holding pending transfers (the host chain's
KV store iterates keys in byte order, so the model keeps the list sorted by
key). -/
abbrev PoolStore := List (PoolKey × SendToEthereum)

/-- The `ctx.KVStore(..).Set`: ordered insert, replacing an existing equal key. -/
def kvSet : PoolStore → PoolKey → SendToEthereum → PoolStore
  | [], k, v => [(k, v)]
  | (k', v') :: rest, k, v =>
      if k = k' then (k, v) :: rest
      else if PoolKey.leb k k' then (k, v) :: (k', v') :: rest
      else (k', v') :: kvSet rest k v

/-- The `ctx.KVStore(..).Delete`. -/
def kvDelete (st : PoolStore) (k : PoolKey) : PoolStore :=
  st.filter (fun kv => kv.1 ≠ k)

/-- The keeper's persisted state: custody balances, the send-to-Ethereum id
counter singleton, the pending pool, and the (static) asset registry. -/
structure GravityState where
  bank : Bank
  lastSendToEthereumID : Nat
  pool : PoolStore
  registry : List RegEntry

/-- The `Keeper.IncrementLastSendToEthereumIDKey`: read the persisted counter
(zero when absent), increment as a `uint64`, persist, return the new id. -/
def IncrementLastSendToEthereumIDKey (st : GravityState) : Nat × GravityState :=
  let newId := (st.lastSendToEthereumID + 1) % 2 ^ 64
  (newId, { st with lastSendToEthereumID := newId })

/-- The `Keeper.SetUnbatchedSendToEthereum`. -/
def SetUnbatchedSendToEthereum (st : GravityState) (ste : SendToEthereum) : GravityState :=
  { st with pool := kvSet st.pool (GetSendToEthereumKey ste.id ste.erc20Fee) ste }

/-- The `Keeper.DeleteUnbatchedSendToEthereum`. -/
def DeleteUnbatchedSendToEthereum (st : GravityState) (id : Nat) (fee : ERC20Token) : GravityState :=
  { st with pool := kvDelete st.pool (GetSendToEthereumKey id fee) }

/-- The `sdk.Coin.Add` (external cosmos-sdk): panics when the denominations
differ. -/
def Coin.Add (a b : Coin) : GoResult Coin :=
  if a.denom ≠ b.denom then .panics else .ok ⟨a.denom, a.amount + b.amount⟩

/-- The `Keeper.CreateSendToEthereum`: add the fee to the amount (`sdk.Coin.Add`
panics on a denomination mismatch), resolve the denomination against the
registry, move the total into module custody (panicking on ledger failure),
burn it when the asset is not cosmos-originated (panicking on failure),
allocate the next id and persist the pooled transfer under the fee-indexed
key. -/
def Keeper.CreateSendToEthereum (st : GravityState) (sender counterpartReceiver : String)
    (amount fee : Coin) : GoResult (Nat × GravityState) :=
  match Coin.Add amount fee with
  | .panics => .panics
  | .err e => .err e
  | .ok totalAmount =>
    match DenomToERC20Lookup st.registry totalAmount.denom with
    | none => .err "denom not found"
    | some (isCosmosOriginated, tokenContract) =>
      match sendCoinsFromAccountToModule st.bank sender totalAmount with
      | none => .panics
      | some bank1 =>
        match (if isCosmosOriginated then some bank1 else burnCoins bank1 totalAmount) with
        | none => .panics
        | some bank2 =>
          let idSt := IncrementLastSendToEthereumIDKey { st with bank := bank2 }
          let st2 := SetUnbatchedSendToEthereum idSt.2
            ⟨idSt.1, sender, counterpartReceiver,
             NewSDKIntERC20Token amount.amount tokenContract,
             NewSDKIntERC20Token fee.amount tokenContract⟩
          .ok (idSt.1, st2)

/-- The `Keeper.CancelSendToEthereum`: compute the refund (the token's gravity
coin plus the fee amount), mint it when the asset is not cosmos-originated,
transfer it from module custody back to the sender (`AccAddressFromBech32`'s
error is ignored in the source, so an undecodable sender collapses to the
empty account), and delete the pooled transfer. -/
def Keeper.CancelSendToEthereum (st : GravityState) (send : SendToEthereum) : GoResult GravityState :=
  let gc := send.erc20Token.GravityCoin st.registry
  let totalToRefund : Coin := ⟨gc.denom, gc.amount + send.erc20Fee.amount⟩
  let isCosmosOriginated := (ERC20ToDenomLookup st.registry send.erc20Token.contract).1
  let sender := if accAddressFromBech32Ok send.sender then send.sender else ""
  let bank1 := if isCosmosOriginated then st.bank else mintCoins st.bank totalToRefund
  match sendCoinsFromModuleToAccount bank1 sender totalToRefund with
  | none => .err "sending coins from module account"
  | some bank2 =>
    .ok (DeleteUnbatchedSendToEthereum { st with bank := bank2 } send.id send.erc20Fee)

/-- The `Keeper.IterateUnbatchedSendToEthereumsByContract`: reverse (descending
key) iteration over the entries whose key is prefixed by the given contract
address; the callback-with-early-stop is specialised to collecting every
entry. -/
def IterateUnbatchedSendToEthereumsByContract (st : GravityState) (contract : Nat) : List SendToEthereum :=
  ((st.pool.filter (fun kv => kv.1.contract == contract)).reverse).map (fun kv => kv.2)

/-- The `Keeper.IterateUnbatchedSendToEthereums`: reverse iteration over the whole
pending pool. -/
def IterateUnbatchedSendToEthereums (st : GravityState) : List SendToEthereum :=
  (st.pool.reverse).map (fun kv => kv.2)

/-- The `Keeper.GetUnbatchedSendToEthereums`. -/
def GetUnbatchedSendToEthereums (st : GravityState) : List SendToEthereum :=
  IterateUnbatchedSendToEthereums st

/-- One operation of a submit/cancel sequence. -/
inductive PoolOp where
  | submit (sender counterpartReceiver : String) (amount fee : Coin)
  | cancel (send : SendToEthereum)

/-- Run one operation.  A failed operation (error, or a panic the host
recovers from) leaves the persisted state unchanged: the host ledger applies
each operation as one atomic state transition (spec §5).  The id of a
successful submit is reported. -/
def stepOp (st : GravityState) : PoolOp → GravityState × Option Nat
  | .submit s r a f =>
    match Keeper.CreateSendToEthereum st s r a f with
    | .ok (id, st') => (st', some id)
    | _ => (st, none)
  | .cancel send =>
    match Keeper.CancelSendToEthereum st send with
    | .ok st' => (st', none)
    | _ => (st, none)

/-- Run a sequence of operations. -/
def runOps (st : GravityState) : List PoolOp → GravityState
  | [] => st
  | op :: rest => runOps (stepOp st op).1 rest

/-- The ids returned by the successful submits of a sequence, in order. -/
def idsReturned (st : GravityState) : List PoolOp → List Nat
  | [] => []
  | op :: rest =>
    match (stepOp st op).2 with
    | some id => id :: idsReturned (stepOp st op).1 rest
    | none => idsReturned (stepOp st op).1 rest

/-- The state at genesis: empty pool, counter singleton unset (zero). -/
def genesisState (bank : Bank) (reg : List RegEntry) : GravityState :=
  ⟨bank, 0, [], reg⟩

/-- A concrete signer-set confirmation whose addresses are valid (the
orchestrator address is the 20-byte account `01…14` bech32-encoded) but whose
signature is not valid hexadecimal. -/
def nonHexSigValset : ConfirmValset :=
  ⟨1, "cosmos1qypqxpq9qcrsszg2pvxq6rs0zqg3yyc5lzv7xu",
   "0x1111111111111111111111111111111111111111", "not-hex"⟩

/-- A concrete batch confirmation with valid addresses and a valid-hex
signature. -/
def hexSigConfirmBatch : ConfirmBatch :=
  ⟨1, "0x1111111111111111111111111111111111111111",
   "0x1111111111111111111111111111111111111111",
   "cosmos1qypqxpq9qcrsszg2pvxq6rs0zqg3yyc5lzv7xu", "00ff"⟩

/-- The bank produced by a successful `SendCoinsFromAccountToModule` (the
nested updates exactly as `bankTransfer` builds them). -/
def bankAfterSend (bk : Bank) (sender : String) (c : Coin) : Bank :=
  bankSet (bankSet bk sender c.denom (bk sender c.denom - c.amount)) ModuleName c.denom
    ((bankSet bk sender c.denom (bk sender c.denom - c.amount)) ModuleName c.denom + c.amount)

/-- The bank produced by a successful `SendCoinsFromModuleToAccount`. -/
def bankAfterReceive (bk : Bank) (recipient : String) (c : Coin) : Bank :=
  bankSet (bankSet bk ModuleName c.denom (bk ModuleName c.denom - c.amount)) recipient c.denom
    ((bankSet bk ModuleName c.denom (bk ModuleName c.denom - c.amount)) recipient c.denom + c.amount)

/-- The bank produced by a successful `BurnCoins`. -/
def bankAfterBurn (bk : Bank) (c : Coin) : Bank :=
  bankSet bk ModuleName c.denom (bk ModuleName c.denom - c.amount)

/-- A concrete two-entry pool, sorted by key, well-formed (each key is the
fee-indexed key of its value), both entries at contract `0xcc`. -/
def twoEntryPoolState : GravityState :=
  ⟨fun _ _ => 0, 2,
   [(GetSendToEthereumKey 2 ⟨3, "0xcc"⟩,
     ⟨2, "alice", "0xef", ⟨10, "0xcc"⟩, ⟨3, "0xcc"⟩⟩),
    (GetSendToEthereumKey 1 ⟨7, "0xcc"⟩,
     ⟨1, "alice", "0xef", ⟨10, "0xcc"⟩, ⟨7, "0xcc"⟩⟩)],
   []⟩

/-- The ids of the pending pool entries' values. -/
def poolIds (st : GravityState) : List Nat :=
  st.pool.map (fun kv => kv.2.id)

/-- The pool bookkeeping invariant: every pending entry's id is bounded by the
persisted counter and matches its key's id component, and no id occurs twice
in the pending pool. -/
def PoolInv (st : GravityState) : Prop :=
  (∀ kv ∈ st.pool, kv.2.id ≤ st.lastSendToEthereumID ∧ kv.1.id = kv.2.id) ∧
  (poolIds st).Nodup

/-- Registry for the counter-wrap scenario: one cosmos-originated asset. -/
def ceReg : List RegEntry := [⟨"x", "0xcc", true⟩]

/-- A submit of zero value and zero fee (always succeeds: nothing to debit). -/
def ceOp : PoolOp := .submit "alice" "0xef" ⟨"x", 0⟩ ⟨"x", 0⟩

/-- Genesis state for the counter-wrap scenario. -/
def ceGenesis : GravityState := genesisState (fun _ _ => 0) ceReg

/-! ## Theorems -/

/-! ### Basic length lemmas -/

@[simp] theorem beBytes_length (k x : Nat) : (beBytes k x).length = k := by
  simp [beBytes]

@[simp] theorem leBytes_length (k x : Nat) : (leBytes k x).length = k := by
  simp [leBytes]

theorem keccakRound_length (A : List Nat) (rc : Nat) : (keccakRound A rc).length = 25 := by
  simp [keccakRound, keccakIota]

theorem foldl_keccakRound_length (rcs : List Nat) (A : List Nat) (h : A.length = 25) :
    (rcs.foldl keccakRound A).length = 25 := by
  induction rcs generalizing A with
  | nil => exact h
  | cons r rs ih => exact ih _ (keccakRound_length A r)

theorem absorbBlock_length (A blk : List Nat) : (absorbBlock A blk).length = 25 := by
  unfold absorbBlock keccakF
  exact foldl_keccakRound_length _ _ (by simp)

theorem foldl_absorbBlock_length (blocks : List (List Nat)) (A : List Nat) (h : A.length = 25) :
    (blocks.foldl absorbBlock A).length = 25 := by
  induction blocks generalizing A with
  | nil => exact h
  | cons b bs ih => exact ih _ (absorbBlock_length A b)

theorem flatten_leBytes8_length (l : List Nat) :
    ((l.map (leBytes 8)).flatten).length = 8 * l.length := by
  induction l with
  | nil => simp
  | cons x xs ih => simp [ih]; ring

theorem keccak256_length (msg : List Nat) : (keccak256 msg).length = 32 := by
  unfold keccak256
  rw [flatten_leBytes8_length, List.length_take,
      foldl_absorbBlock_length _ _ (by simp)]
  norm_num

theorem abiSelector_length (sig : String) : (abiSelector sig).length = 4 := by
  simp [abiSelector, List.length_take, keccak256_length]

theorem abiPack_drop_four (sig : String) (args : List AbiArg) :
    (abiPack sig args).drop 4 = abiEncodeArgs args := by
  unfold abiPack
  rw [← abiSelector_length sig, List.drop_left]

theorem strToFixByteArray_ok (s : String) (h : (utf8Bytes s).length ≤ 32) :
    strToFixByteArray s =
      .ok (utf8Bytes s ++ List.replicate (32 - (utf8Bytes s).length) 0) := by
  unfold strToFixByteArray
  rw [if_neg (by omega)]

theorem strToFixByteArray_ok_length (s : String) (h : (utf8Bytes s).length ≤ 32) :
    (utf8Bytes s ++ List.replicate (32 - (utf8Bytes s).length) 0).length = 32 := by
  simp
  omega

/-! ### C1: the batch checkpoint digest -/

/-- C1: for every `BatchTx` and every chain identifier that fits in 32 bytes,
`GetCheckpoint` returns (without error) the 32-byte Keccak-256 hash of the ABI
encoding — first 4 selector bytes discarded — of the tuple (chain id, domain
tag, array of amounts, array of destination addresses, array of fees, nonce,
contract address, timeout), the three arrays in the caller-provided
transaction order; and the digest is 32 bytes. -/
theorem batch_getCheckpoint_spec (b : BatchTx) (gid : String)
    (h : (utf8Bytes gid).length ≤ 32) :
    b.GetCheckpoint gid =
      .ok (keccak256 (abiEncodeArgs
        [.static (utf8Bytes gid ++ List.replicate (32 - (utf8Bytes gid).length) 0),
         .static batchDomainTag,
         .dynamic (uint256ArrayEnc (b.transactions.map (fun tx => tx.erc20Token.amount))),
         .dynamic (addressArrayEnc (b.transactions.map (fun tx => hexToAddress tx.ethereumRecipient))),
         .dynamic (uint256ArrayEnc (b.transactions.map (fun tx => tx.erc20Fee.amount))),
         .static (uint64Word b.nonce),
         .static (addressWord (hexToAddress b.tokenContract)),
         .static (uint64Word b.timeout)])) ∧
    ∀ digest, b.GetCheckpoint gid = .ok digest → digest.length = 32 := by
  constructor
  · unfold BatchTx.GetCheckpoint
    rw [strToFixByteArray_ok gid h]
    simp only [abiPack_drop_four, batchCheckpointArgs]
  · intro digest hd
    unfold BatchTx.GetCheckpoint at hd
    rw [strToFixByteArray_ok gid h] at hd
    simp only [GoResult.ok.injEq] at hd
    rw [← hd]
    exact keccak256_length _

/-- Witness for C1 at a concrete batch and the spec's example identifier. -/
theorem batch_getCheckpoint_spec_witness :
    (utf8Bytes "testchain").length ≤ 32 ∧
    (BatchTx.mk 7 1000 [] "0xcc").GetCheckpoint "testchain" =
      .ok (keccak256 (abiEncodeArgs
        [.static (utf8Bytes "testchain" ++ List.replicate (32 - (utf8Bytes "testchain").length) 0),
         .static batchDomainTag,
         .dynamic (uint256ArrayEnc (([] : List SendToEthereum).map (fun tx => tx.erc20Token.amount))),
         .dynamic (addressArrayEnc (([] : List SendToEthereum).map (fun tx => hexToAddress tx.ethereumRecipient))),
         .dynamic (uint256ArrayEnc (([] : List SendToEthereum).map (fun tx => tx.erc20Fee.amount))),
         .static (uint64Word 7),
         .static (addressWord (hexToAddress "0xcc")),
         .static (uint64Word 1000)])) :=
  ⟨by decide, (batch_getCheckpoint_spec (BatchTx.mk 7 1000 [] "0xcc") "testchain" (by decide)).1⟩

/-! ### C2: over-long chain identifiers abort instead of failing recoverably -/

/-- C2 (divergence witness, 33-byte identifier): both `GetCheckpoint`s abort
the process (Go `panic`) on a chain identifier whose natural encoding exceeds
32 bytes, instead of returning the recoverable encoding error the spec
requires. -/
theorem getCheckpoint_long_id_panics :
    (BatchTx.mk 1 2 [] "0xcc").GetCheckpoint "AAAAAAAAAAAAAAAAAAAAAAAAAAAAAAAAA" = .panics ∧
    (LogicCallTx.mk [] [] "0xcc" [] 3 [] 4).GetCheckpoint "AAAAAAAAAAAAAAAAAAAAAAAAAAAAAAAAA" = .panics := by
  exact ⟨rfl, rfl⟩

/-! ### C10: uint64 fields travel through int64 -/

/-- C10: `GetCheckpoint` encodes the `uint64` fields Nonce, Timeout and
InvalidationNonce through `int64` (`big.NewInt(int64(v))`): below `2^63` the
encoded word is the value itself, and at `2^63` it no longer is (the word
becomes the two's-complement wrap), so the bound is a genuine precondition for
the digest to commit to the actual field values.  The last two conjuncts pin
where `uint64Word` sits inside the checkpoint tuples. -/
theorem uint64_fields_via_int64 :
    (∀ n : Nat, n < 2 ^ 63 → uint64Word n = beBytes 32 n) ∧
    uint64Word (2 ^ 63) ≠ beBytes 32 (2 ^ 63) ∧
    (∀ (g : List Nat) (b : BatchTx),
      (batchCheckpointArgs g b)[5]? = some (.static (uint64Word b.nonce)) ∧
      (batchCheckpointArgs g b)[7]? = some (.static (uint64Word b.timeout))) ∧
    (∀ (g : List Nat) (c : LogicCallTx),
      (logicCallCheckpointArgs g c)[8]? = some (.static (uint64Word c.timeout)) ∧
      (logicCallCheckpointArgs g c)[10]? = some (.static (uint64Word c.invalidationNonce))) := by
  refine ⟨?_, ?_, fun g b => ⟨rfl, rfl⟩, fun g c => ⟨rfl, rfl⟩⟩
  · intro n hn
    have h64 : n % 2 ^ 64 = n := Nat.mod_eq_of_lt (lt_trans hn (by norm_num))
    unfold uint64Word int64OfUint64
    rw [h64, if_pos hn]
    congr 1
    rw [Int.emod_eq_of_lt (by positivity) (by exact_mod_cast lt_trans hn (by norm_num))]
    exact Int.toNat_natCast n
  · decide

/-- Witness for C10 at a concrete small nonce. -/
theorem uint64_fields_via_int64_witness : uint64Word 5 = beBytes 32 5 :=
  uint64_fields_via_int64.1 5 (by decide)

/-! ### C7: not-applicable accessors return bare zero values -/

/-- C7 (divergence): every accessor for a field that is not applicable to its
variant returns the bare zero value (`0` / `""`), indistinguishable from a
genuine zero nonce or empty id — not an explicit not-applicable marker (the
return types carry no absent case). -/
theorem accessors_return_bare_zero :
    (∀ m : ConfirmBatch, m.GetInvalidationNonce = 0 ∧ m.GetInvalidationId = "") ∧
    (∀ m : ConfirmLogicCall, m.GetNonce = 0 ∧ m.GetTokenContract = "") ∧
    (∀ m : ConfirmValset, m.GetInvalidationNonce = 0 ∧ m.GetInvalidationId = "") :=
  ⟨fun _ => ⟨rfl, rfl⟩, fun _ => ⟨rfl, rfl⟩, fun _ => ⟨rfl, rfl⟩⟩

/-! ### C6: signature hex validation per variant -/

/-- C6 counterexample: a signer-set confirmation whose signature is not valid
hexadecimal but which `Validate` accepts — `ConfirmValset.Validate` never
examines the signature, so the claim fails for that variant. -/
theorem valset_accepts_nonhex_signature :
    hexDecodeOk nonHexSigValset.signature = false ∧
    nonHexSigValset.Validate = none := by
  exact ⟨by decide, by decide⟩

/-- C6 amended: the batch and logic-call confirmations reject a record whose
signature is not valid hexadecimal with the invalid-signature-encoding error
and never reject a valid-hex signature (given well-formed addresses and, for
the call variant, a well-formed invalidation id); the signer-set variant's
`Validate` performs no signature check at all — its outcome is independent of
the signature field. -/
theorem confirm_signature_hex_rule :
    (∀ m : ConfirmBatch, accAddressFromBech32Ok m.orchestratorAddress = true →
      ValidateEthAddressOk m.ethSigner = true → ValidateEthAddressOk m.tokenContract = true →
      ((m.Validate = some .invalidSignatureHex ↔ hexDecodeOk m.signature = false) ∧
       (hexDecodeOk m.signature = true → m.Validate = none))) ∧
    (∀ m : ConfirmLogicCall, accAddressFromBech32Ok m.orchestratorAddress = true →
      ValidateEthAddressOk m.ethSigner = true →
      ((m.Validate = some .invalidSignatureHex ↔ hexDecodeOk m.signature = false) ∧
       (hexDecodeOk m.signature = true → hexDecodeOk m.invalidationId = true →
         m.Validate = none))) ∧
    (∀ (m : ConfirmValset) (s₁ s₂ : String),
      (ConfirmValset.mk m.nonce m.orchestratorAddress m.ethAddress s₁).Validate =
        (ConfirmValset.mk m.nonce m.orchestratorAddress m.ethAddress s₂).Validate) := by
  refine ⟨?_, ?_, fun m s₁ s₂ => rfl⟩
  · intro m h1 h2 h3
    unfold ConfirmBatch.Validate
    rw [h1, h2, h3]
    cases hs : hexDecodeOk m.signature <;> simp [hs]
  · intro m h1 h2
    unfold ConfirmLogicCall.Validate
    rw [h1, h2]
    cases hs : hexDecodeOk m.signature
    · simp [hs]
    · cases hi : hexDecodeOk m.invalidationId <;> simp [hs, hi]

/-- Witness for C6's amended rule at a concrete batch confirmation. -/
theorem confirm_signature_hex_rule_witness :
    (hexSigConfirmBatch.Validate = some .invalidSignatureHex ↔
      hexDecodeOk hexSigConfirmBatch.signature = false) ∧
    (hexDecodeOk hexSigConfirmBatch.signature = true → hexSigConfirmBatch.Validate = none) :=
  confirm_signature_hex_rule.1 hexSigConfirmBatch (by decide) (by decide) (by decide)

/-! ### C9: mismatched denominations abort the submit -/

/-- C9 (divergence witness): a submit whose value and fee carry different
denominations goes through `sdk.Coin.Add`, which panics — the keeper aborts
instead of returning the recoverable denomination-mismatch error the spec
requires. -/
theorem submit_denom_mismatch_panics :
    Keeper.CreateSendToEthereum
      (genesisState (fun _ _ => 1000000) [⟨"atom", "0xcc", true⟩])
      "cosmos1qypqxpq9qcrsszg2pvxq6rs0zqg3yyc5lzv7xu" "0xef"
      ⟨"atom", 100⟩ ⟨"btc", 5⟩ = .panics := rfl

/-! ### C4: submit immediately followed by cancel restores the balance -/

theorem bankSet_self (bk : Bank) (a d : String) (v : Nat) : bankSet bk a d v a d = v := by
  simp [bankSet]

theorem bankSet_ne_acct (bk : Bank) (a d : String) (v : Nat) (a' d' : String) (h : a' ≠ a) :
    bankSet bk a d v a' d' = bk a' d' := by
  unfold bankSet
  rw [if_neg (by tauto)]

theorem bankSet_ne_denom (bk : Bank) (a d : String) (v : Nat) (a' d' : String) (h : d' ≠ d) :
    bankSet bk a d v a' d' = bk a' d' := by
  unfold bankSet
  rw [if_neg (by tauto)]

theorem sendToModule_ok (bk : Bank) (sender : String) (c : Coin)
    (h : c.amount ≤ bk sender c.denom) :
    sendCoinsFromAccountToModule bk sender c = some (bankAfterSend bk sender c) := by
  unfold sendCoinsFromAccountToModule bankTransfer bankAfterSend
  rw [if_neg (not_lt.mpr h)]

theorem burn_ok (bk : Bank) (c : Coin) (h : c.amount ≤ bk ModuleName c.denom) :
    burnCoins bk c = some (bankAfterBurn bk c) := by
  unfold burnCoins bankAfterBurn
  rw [if_neg (not_lt.mpr h)]

theorem sendFromModule_ok (bk : Bank) (recipient : String) (c : Coin)
    (h : c.amount ≤ bk ModuleName c.denom) :
    sendCoinsFromModuleToAccount bk recipient c = some (bankAfterReceive bk recipient c) := by
  unfold sendCoinsFromModuleToAccount bankTransfer bankAfterReceive
  rw [if_neg (not_lt.mpr h)]

theorem bankAfterSend_module (bk : Bank) (sender : String) (c : Coin) (hs : sender ≠ ModuleName) :
    bankAfterSend bk sender c ModuleName c.denom = bk ModuleName c.denom + c.amount := by
  unfold bankAfterSend
  rw [bankSet_self, bankSet_ne_acct _ _ _ _ _ _ (fun h => hs h.symm)]

theorem bankAfterSend_sender (bk : Bank) (sender : String) (c : Coin) (hs : sender ≠ ModuleName) :
    bankAfterSend bk sender c sender c.denom = bk sender c.denom - c.amount := by
  unfold bankAfterSend
  rw [bankSet_ne_acct _ _ _ _ _ _ hs, bankSet_self]

theorem kvSet_mem_self (pool : PoolStore) (k : PoolKey) (v : SendToEthereum) :
    (k, v) ∈ kvSet pool k v := by
  induction pool with
  | nil => exact List.mem_singleton.mpr rfl
  | cons hd tl ih =>
    obtain ⟨k', v'⟩ := hd
    unfold kvSet
    split
    · exact List.mem_cons_self _ _
    · split
      · exact List.mem_cons_self _ _
      · exact List.mem_cons_of_mem _ ih

/-- C4: a submit of (value, fee) immediately followed by cancel of the record
stored under the returned id restores the sender's balance to exactly its
pre-submit value — in every denomination — on both the foreign-originated
(burn/mint) path and the source-chain-native (retain) path, whenever the
registry's two lookups agree on the asset. -/
theorem submit_cancel_roundtrip (st : GravityState) (sender recv : String) (amount fee : Coin)
    (iso : Bool) (contract : String)
    (h_denom : fee.denom = amount.denom)
    (h_reg : DenomToERC20Lookup st.registry amount.denom = some (iso, contract))
    (h_rev : ERC20ToDenomLookup st.registry contract = (iso, amount.denom))
    (h_bal : amount.amount + fee.amount ≤ st.bank sender amount.denom)
    (h_sender : sender ≠ ModuleName)
    (h_acc : accAddressFromBech32Ok sender = true) :
    ∃ st₁ st₂,
      Keeper.CreateSendToEthereum st sender recv amount fee =
        .ok ((st.lastSendToEthereumID + 1) % 2 ^ 64, st₁) ∧
      (GetSendToEthereumKey ((st.lastSendToEthereumID + 1) % 2 ^ 64) ⟨fee.amount, contract⟩,
        (⟨(st.lastSendToEthereumID + 1) % 2 ^ 64, sender, recv, ⟨amount.amount, contract⟩,
          ⟨fee.amount, contract⟩⟩ : SendToEthereum)) ∈ st₁.pool ∧
      Keeper.CancelSendToEthereum st₁
        ⟨(st.lastSendToEthereumID + 1) % 2 ^ 64, sender, recv, ⟨amount.amount, contract⟩,
         ⟨fee.amount, contract⟩⟩ = .ok st₂ ∧
      ∀ den, st₂.bank sender den = st.bank sender den := by
  have hAdd : Coin.Add amount fee = .ok ⟨amount.denom, amount.amount + fee.amount⟩ := by
    unfold Coin.Add
    rw [if_neg (by simp [h_denom])]
  have hSend : sendCoinsFromAccountToModule st.bank sender
      ⟨amount.denom, amount.amount + fee.amount⟩ =
      some (bankAfterSend st.bank sender ⟨amount.denom, amount.amount + fee.amount⟩) :=
    sendToModule_ok _ _ _ h_bal
  have hMod : bankAfterSend st.bank sender ⟨amount.denom, amount.amount + fee.amount⟩
      ModuleName amount.denom = st.bank ModuleName amount.denom + (amount.amount + fee.amount) :=
    bankAfterSend_module _ _ _ h_sender
  have hSen : bankAfterSend st.bank sender ⟨amount.denom, amount.amount + fee.amount⟩
      sender amount.denom = st.bank sender amount.denom - (amount.amount + fee.amount) :=
    bankAfterSend_sender _ _ _ h_sender
  have hOther : ∀ den, den ≠ amount.denom →
      bankAfterSend st.bank sender ⟨amount.denom, amount.amount + fee.amount⟩ sender den =
        st.bank sender den := by
    intro den hden
    unfold bankAfterSend
    rw [bankSet_ne_denom _ _ _ _ _ _ hden, bankSet_ne_denom _ _ _ _ _ _ hden]
  cases iso with
  | true =>
    have hRecv : sendCoinsFromModuleToAccount
        (bankAfterSend st.bank sender ⟨amount.denom, amount.amount + fee.amount⟩) sender
        ⟨amount.denom, amount.amount + fee.amount⟩ =
        some (bankAfterReceive
          (bankAfterSend st.bank sender ⟨amount.denom, amount.amount + fee.amount⟩) sender
          ⟨amount.denom, amount.amount + fee.amount⟩) :=
      sendFromModule_ok _ _ _ (by simp only [hMod]; omega)
    refine ⟨⟨bankAfterSend st.bank sender ⟨amount.denom, amount.amount + fee.amount⟩,
        (st.lastSendToEthereumID + 1) % 2 ^ 64,
        kvSet st.pool
          (GetSendToEthereumKey ((st.lastSendToEthereumID + 1) % 2 ^ 64) ⟨fee.amount, contract⟩)
          ⟨(st.lastSendToEthereumID + 1) % 2 ^ 64, sender, recv, ⟨amount.amount, contract⟩,
           ⟨fee.amount, contract⟩⟩,
        st.registry⟩,
      ⟨bankAfterReceive
          (bankAfterSend st.bank sender ⟨amount.denom, amount.amount + fee.amount⟩) sender
          ⟨amount.denom, amount.amount + fee.amount⟩,
        (st.lastSendToEthereumID + 1) % 2 ^ 64,
        kvDelete (kvSet st.pool
          (GetSendToEthereumKey ((st.lastSendToEthereumID + 1) % 2 ^ 64) ⟨fee.amount, contract⟩)
          ⟨(st.lastSendToEthereumID + 1) % 2 ^ 64, sender, recv, ⟨amount.amount, contract⟩,
           ⟨fee.amount, contract⟩⟩)
          (GetSendToEthereumKey ((st.lastSendToEthereumID + 1) % 2 ^ 64) ⟨fee.amount, contract⟩),
        st.registry⟩, ?_, kvSet_mem_self _ _ _, ?_, ?_⟩
    · simp only [Keeper.CreateSendToEthereum, hAdd, h_reg, hSend]
      rfl
    · simp [Keeper.CancelSendToEthereum, ERC20Token.GravityCoin, h_rev, h_acc, hRecv,
        DeleteUnbatchedSendToEthereum]
    · intro den
      simp only [bankAfterReceive]
      by_cases hden : den = amount.denom
      · subst hden
        rw [bankSet_self, bankSet_ne_acct _ _ _ _ _ _ h_sender, hSen]
        omega
      · rw [bankSet_ne_denom _ _ _ _ _ _ hden, bankSet_ne_denom _ _ _ _ _ _ hden,
          hOther den hden]
  | false =>
    have hBurn : burnCoins (bankAfterSend st.bank sender ⟨amount.denom, amount.amount + fee.amount⟩)
        ⟨amount.denom, amount.amount + fee.amount⟩ =
        some (bankAfterBurn
          (bankAfterSend st.bank sender ⟨amount.denom, amount.amount + fee.amount⟩)
          ⟨amount.denom, amount.amount + fee.amount⟩) :=
      burn_ok _ _ (by simp only [hMod]; omega)
    have hRecv : sendCoinsFromModuleToAccount
        (mintCoins (bankAfterBurn
          (bankAfterSend st.bank sender ⟨amount.denom, amount.amount + fee.amount⟩)
          ⟨amount.denom, amount.amount + fee.amount⟩)
          ⟨amount.denom, amount.amount + fee.amount⟩) sender
        ⟨amount.denom, amount.amount + fee.amount⟩ =
        some (bankAfterReceive
          (mintCoins (bankAfterBurn
            (bankAfterSend st.bank sender ⟨amount.denom, amount.amount + fee.amount⟩)
            ⟨amount.denom, amount.amount + fee.amount⟩)
            ⟨amount.denom, amount.amount + fee.amount⟩) sender
          ⟨amount.denom, amount.amount + fee.amount⟩) :=
      sendFromModule_ok _ _ _ (by simp only [mintCoins, bankSet_self]; omega)
    refine ⟨⟨bankAfterBurn
          (bankAfterSend st.bank sender ⟨amount.denom, amount.amount + fee.amount⟩)
          ⟨amount.denom, amount.amount + fee.amount⟩,
        (st.lastSendToEthereumID + 1) % 2 ^ 64,
        kvSet st.pool
          (GetSendToEthereumKey ((st.lastSendToEthereumID + 1) % 2 ^ 64) ⟨fee.amount, contract⟩)
          ⟨(st.lastSendToEthereumID + 1) % 2 ^ 64, sender, recv, ⟨amount.amount, contract⟩,
           ⟨fee.amount, contract⟩⟩,
        st.registry⟩,
      ⟨bankAfterReceive
          (mintCoins (bankAfterBurn
            (bankAfterSend st.bank sender ⟨amount.denom, amount.amount + fee.amount⟩)
            ⟨amount.denom, amount.amount + fee.amount⟩)
            ⟨amount.denom, amount.amount + fee.amount⟩) sender
          ⟨amount.denom, amount.amount + fee.amount⟩,
        (st.lastSendToEthereumID + 1) % 2 ^ 64,
        kvDelete (kvSet st.pool
          (GetSendToEthereumKey ((st.lastSendToEthereumID + 1) % 2 ^ 64) ⟨fee.amount, contract⟩)
          ⟨(st.lastSendToEthereumID + 1) % 2 ^ 64, sender, recv, ⟨amount.amount, contract⟩,
           ⟨fee.amount, contract⟩⟩)
          (GetSendToEthereumKey ((st.lastSendToEthereumID + 1) % 2 ^ 64) ⟨fee.amount, contract⟩),
        st.registry⟩, ?_, kvSet_mem_self _ _ _, ?_, ?_⟩
    · simp only [Keeper.CreateSendToEthereum, hAdd, h_reg, hSend, Bool.false_eq_true, if_false,
        hBurn]
      rfl
    · simp [Keeper.CancelSendToEthereum, ERC20Token.GravityCoin, h_rev, h_acc, hRecv,
        DeleteUnbatchedSendToEthereum]
    · intro den
      simp only [bankAfterReceive, mintCoins, bankAfterBurn]
      by_cases hden : den = amount.denom
      · subst hden
        rw [bankSet_self, bankSet_ne_acct _ _ _ _ _ _ h_sender,
            bankSet_ne_acct _ _ _ _ _ _ h_sender, bankSet_ne_acct _ _ _ _ _ _ h_sender, hSen]
        omega
      · rw [bankSet_ne_denom _ _ _ _ _ _ hden, bankSet_ne_denom _ _ _ _ _ _ hden,
          bankSet_ne_denom _ _ _ _ _ _ hden, bankSet_ne_denom _ _ _ _ _ _ hden,
          hOther den hden]

/-- Witness for C4: both paths at concrete inputs (the foreign-originated
voucher registry entry; sender holds exactly value + fee). -/
theorem submit_cancel_roundtrip_witness :
    ∃ st₁ st₂,
      Keeper.CreateSendToEthereum
        (genesisState (fun _ _ => 105) [⟨"gravity0xcc", "0xcc", false⟩])
        "cosmos1qypqxpq9qcrsszg2pvxq6rs0zqg3yyc5lzv7xu" "0xef"
        ⟨"gravity0xcc", 100⟩ ⟨"gravity0xcc", 5⟩ = .ok (1, st₁) ∧
      (GetSendToEthereumKey 1 ⟨5, "0xcc"⟩,
        (⟨1, "cosmos1qypqxpq9qcrsszg2pvxq6rs0zqg3yyc5lzv7xu", "0xef", ⟨100, "0xcc"⟩,
          ⟨5, "0xcc"⟩⟩ : SendToEthereum)) ∈ st₁.pool ∧
      Keeper.CancelSendToEthereum st₁
        ⟨1, "cosmos1qypqxpq9qcrsszg2pvxq6rs0zqg3yyc5lzv7xu", "0xef", ⟨100, "0xcc"⟩,
         ⟨5, "0xcc"⟩⟩ = .ok st₂ ∧
      ∀ den, st₂.bank "cosmos1qypqxpq9qcrsszg2pvxq6rs0zqg3yyc5lzv7xu" den =
        (genesisState (fun _ _ => 105) [⟨"gravity0xcc", "0xcc", false⟩]).bank
          "cosmos1qypqxpq9qcrsszg2pvxq6rs0zqg3yyc5lzv7xu" den :=
  submit_cancel_roundtrip
    (genesisState (fun _ _ => 105) [⟨"gravity0xcc", "0xcc", false⟩])
    "cosmos1qypqxpq9qcrsszg2pvxq6rs0zqg3yyc5lzv7xu" "0xef"
    ⟨"gravity0xcc", 100⟩ ⟨"gravity0xcc", 5⟩ false "0xcc"
    rfl (by decide) (by decide) (by decide) (by decide) (by decide)

/-! ### C8: per-contract iteration in non-increasing fee order -/

/-- C8: for every destination contract and every well-formed, key-sorted pool
state, the per-contract reverse iteration yields its entries' fees in
non-increasing order. -/
theorem iterate_by_contract_fee_sorted (st : GravityState) (contract : Nat)
    (h_sorted : st.pool.Pairwise (fun a b => PoolKey.leb a.1 b.1 = true))
    (h_wf : ∀ kv ∈ st.pool, kv.1 = GetSendToEthereumKey kv.2.id kv.2.erc20Fee) :
    ((IterateUnbatchedSendToEthereumsByContract st contract).map
      (fun s => s.erc20Fee.amount)).Chain' (· ≥ ·) := by
  unfold IterateUnbatchedSendToEthereumsByContract
  rw [List.map_map]
  have h1 : (st.pool.filter (fun kv => kv.1.contract == contract)).Pairwise
      (fun a b => PoolKey.leb a.1 b.1 = true) := h_sorted.filter _
  have h3 : (st.pool.filter (fun kv => kv.1.contract == contract)).Pairwise
      (fun a b => a.2.erc20Fee.amount ≤ b.2.erc20Fee.amount) := by
    refine h1.imp_of_mem ?_
    intro a b ha hb hle
    have hca : a.1.contract = contract := by
      simpa using (List.mem_filter.mp ha).2
    have hcb : b.1.contract = contract := by
      simpa using (List.mem_filter.mp hb).2
    have hfa : a.1.feeAmount = a.2.erc20Fee.amount := by
      rw [h_wf a (List.mem_of_mem_filter ha)]
      rfl
    have hfb : b.1.feeAmount = b.2.erc20Fee.amount := by
      rw [h_wf b (List.mem_of_mem_filter hb)]
      rfl
    simp only [PoolKey.leb, decide_eq_true_eq] at hle
    rcases hle with hlt | ⟨_, hfee | ⟨hfee, _⟩⟩
    · omega
    · omega
    · omega
  have h4 : ((st.pool.filter (fun kv => kv.1.contract == contract)).reverse).Pairwise
      (fun a b => b.2.erc20Fee.amount ≤ a.2.erc20Fee.amount) := by
    rw [List.pairwise_reverse]
    exact h3
  have h5 : (((st.pool.filter (fun kv => kv.1.contract == contract)).reverse).map
      (fun kv => kv.2.erc20Fee.amount)).Pairwise (· ≥ ·) :=
    List.Pairwise.map _ (fun a b hab => hab) h4
  exact h5.chain'

/-- Witness for C8 at a concrete sorted two-entry pool. -/
theorem iterate_by_contract_fee_sorted_witness :
    ((IterateUnbatchedSendToEthereumsByContract twoEntryPoolState
      (hexToAddress "0xcc")).map (fun s => s.erc20Fee.amount)).Chain' (· ≥ ·) :=
  iterate_by_contract_fee_sorted twoEntryPoolState (hexToAddress "0xcc")
    (by decide) (by decide)

/-! ### C5: id allocation across submit/cancel sequences -/

theorem create_ok_shape (st : GravityState) (sender recv : String) (amount fee : Coin)
    (id : Nat) (st' : GravityState)
    (h : Keeper.CreateSendToEthereum st sender recv amount fee = .ok (id, st')) :
    id = (st.lastSendToEthereumID + 1) % 2 ^ 64 ∧
    st'.lastSendToEthereumID = (st.lastSendToEthereumID + 1) % 2 ^ 64 ∧
    st'.registry = st.registry ∧
    ∃ tc bank2, st' = ⟨bank2, (st.lastSendToEthereumID + 1) % 2 ^ 64,
      kvSet st.pool
        (GetSendToEthereumKey ((st.lastSendToEthereumID + 1) % 2 ^ 64) ⟨fee.amount, tc⟩)
        ⟨(st.lastSendToEthereumID + 1) % 2 ^ 64, sender, recv, ⟨amount.amount, tc⟩,
         ⟨fee.amount, tc⟩⟩,
      st.registry⟩ := by
  unfold Keeper.CreateSendToEthereum at h
  split at h
  · exact absurd h (by simp)
  · exact absurd h (by simp)
  · split at h
    · exact absurd h (by simp)
    · split at h
      · exact absurd h (by simp)
      · split at h
        · exact absurd h (by simp)
        · simp only [GoResult.ok.injEq, Prod.mk.injEq] at h
          obtain ⟨hid, hst⟩ := h
          subst hst
          exact ⟨hid.symm, rfl, rfl, _, _, rfl⟩

theorem cancel_ok_shape (st : GravityState) (send : SendToEthereum) (st' : GravityState)
    (h : Keeper.CancelSendToEthereum st send = .ok st') :
    st'.lastSendToEthereumID = st.lastSendToEthereumID ∧
    st'.registry = st.registry ∧
    st'.pool = kvDelete st.pool (GetSendToEthereumKey send.id send.erc20Fee) := by
  simp only [Keeper.CancelSendToEthereum] at h
  repeat' split at h
  all_goals
    first
      | (simp only [GoResult.ok.injEq] at h
         subst h
         exact ⟨rfl, rfl, rfl⟩)
      | simp at h

theorem kvSet_perm_fresh (pool : PoolStore) (k : PoolKey) (v : SendToEthereum)
    (h : ∀ kv ∈ pool, kv.1 ≠ k) : (kvSet pool k v).Perm ((k, v) :: pool) := by
  induction pool with
  | nil => exact List.Perm.refl _
  | cons hd tl ih =>
    obtain ⟨k', v'⟩ := hd
    unfold kvSet
    split
    · rename_i heq
      exact absurd heq.symm (h (k', v') (List.mem_cons_self _ _))
    · split
      · exact List.Perm.refl _
      · exact List.Perm.trans
          (List.Perm.cons _ (ih (fun kv hkv => h kv (List.mem_cons_of_mem _ hkv))))
          (List.Perm.swap _ _ _)

theorem runOps_append (st : GravityState) (l1 l2 : List PoolOp) :
    runOps st (l1 ++ l2) = runOps (runOps st l1) l2 := by
  induction l1 generalizing st with
  | nil => rfl
  | cons op rest ih =>
    simp only [List.cons_append, runOps]
    exact ih _

theorem genesis_poolInv (bank : Bank) (reg : List RegEntry) :
    PoolInv (genesisState bank reg) :=
  ⟨fun _ h => absurd h (List.not_mem_nil _), List.nodup_nil⟩

theorem runOps_facts (ops : List PoolOp) (st : GravityState)
    (hInv : PoolInv st)
    (hlen : st.lastSendToEthereumID + ops.length < 2 ^ 64) :
    (idsReturned st ops).Chain' (· < ·) ∧
    (∀ i ∈ idsReturned st ops, st.lastSendToEthereumID < i) ∧
    PoolInv (runOps st ops) ∧
    st.lastSendToEthereumID ≤ (runOps st ops).lastSendToEthereumID ∧
    (runOps st ops).lastSendToEthereumID ≤ st.lastSendToEthereumID + ops.length := by
  induction ops generalizing st with
  | nil =>
    simp only [idsReturned, runOps]
    exact ⟨List.chain'_nil, fun i hi => absurd hi (List.not_mem_nil _), hInv, le_refl _,
      by omega⟩
  | cons op rest ih =>
    have hlen1 : st.lastSendToEthereumID + rest.length < 2 ^ 64 := by
      simp only [List.length_cons] at hlen
      omega
    cases op with
    | submit s r a f =>
      cases hc : Keeper.CreateSendToEthereum st s r a f with
      | ok pr =>
        obtain ⟨id, st1⟩ := pr
        have hstep : stepOp st (.submit s r a f) = (st1, some id) := by
          simp [stepOp, hc]
        obtain ⟨hid, hcnt, hregeq, tc, bank2, hst⟩ := create_ok_shape _ _ _ _ _ _ _ hc
        have hnw : (st.lastSendToEthereumID + 1) % 2 ^ 64 = st.lastSendToEthereumID + 1 := by
          apply Nat.mod_eq_of_lt
          simp only [List.length_cons] at hlen
          omega
        have hfresh : ∀ kv ∈ st.pool,
            kv.1 ≠ GetSendToEthereumKey ((st.lastSendToEthereumID + 1) % 2 ^ 64)
              ⟨f.amount, tc⟩ := by
          intro kv hkv heq
          have h1 := hInv.1 kv hkv
          have h2 : kv.1.id = (st.lastSendToEthereumID + 1) % 2 ^ 64 := by
            rw [heq]
            rfl
          rw [hnw] at h2
          omega
        have hperm := kvSet_perm_fresh st.pool
          (GetSendToEthereumKey ((st.lastSendToEthereumID + 1) % 2 ^ 64) ⟨f.amount, tc⟩)
          ⟨(st.lastSendToEthereumID + 1) % 2 ^ 64, s, r, ⟨a.amount, tc⟩, ⟨f.amount, tc⟩⟩
          hfresh
        have hInv1 : PoolInv st1 := by
          constructor
          · intro kv hkv
            have hkv' : kv ∈ kvSet st.pool
                (GetSendToEthereumKey ((st.lastSendToEthereumID + 1) % 2 ^ 64) ⟨f.amount, tc⟩)
                ⟨(st.lastSendToEthereumID + 1) % 2 ^ 64, s, r, ⟨a.amount, tc⟩,
                 ⟨f.amount, tc⟩⟩ := by
              rw [hst] at hkv
              exact hkv
            rcases List.mem_cons.mp (hperm.mem_iff.mp hkv') with hnew | hold
            · rw [hnew, hcnt]
              exact ⟨by rw [hnw], rfl⟩
            · have h1 := hInv.1 kv hold
              refine ⟨?_, h1.2⟩
              rw [hcnt, hnw]
              omega
          · have hmap := hperm.map (fun kv => kv.2.id)
            have hnodup : ((st.lastSendToEthereumID + 1) % 2 ^ 64 :: poolIds st).Nodup := by
              rw [List.nodup_cons]
              refine ⟨?_, hInv.2⟩
              intro hmem
              obtain ⟨kv, hkv, hkvid⟩ := List.mem_map.mp hmem
              have h1 := hInv.1 kv hkv
              rw [hnw] at hkvid
              omega
            have : poolIds st1 = (kvSet st.pool
                (GetSendToEthereumKey ((st.lastSendToEthereumID + 1) % 2 ^ 64) ⟨f.amount, tc⟩)
                ⟨(st.lastSendToEthereumID + 1) % 2 ^ 64, s, r, ⟨a.amount, tc⟩,
                 ⟨f.amount, tc⟩⟩).map (fun kv => kv.2.id) := by
              rw [hst]
              rfl
            rw [this]
            exact hmap.symm.nodup hnodup
        have hlen2 : st1.lastSendToEthereumID + rest.length < 2 ^ 64 := by
          rw [hcnt, hnw]
          simp only [List.length_cons] at hlen
          omega
        obtain ⟨ihC, ihG, ihI, ihL, ihU⟩ := ih st1 hInv1 hlen2
        have hidv : id = st.lastSendToEthereumID + 1 := by rw [hid, hnw]
        refine ⟨?_, ?_, ?_, ?_, ?_⟩
        · simp only [idsReturned, hstep]
          rw [List.chain'_cons']
          refine ⟨?_, ihC⟩
          intro y hy
          have := ihG y (List.mem_of_mem_head? hy)
          rw [hcnt, hnw] at this
          omega
        · simp only [idsReturned, hstep]
          intro i hi
          rcases List.mem_cons.mp hi with hieq | himem
          · omega
          · have := ihG i himem
            rw [hcnt, hnw] at this
            omega
        · simp only [runOps, hstep]
          exact ihI
        · simp only [runOps, hstep]
          rw [hcnt, hnw] at ihL
          omega
        · simp only [runOps, hstep, List.length_cons]
          rw [hcnt, hnw] at ihU
          omega
      | err e =>
        have hstep : stepOp st (.submit s r a f) = (st, none) := by
          simp [stepOp, hc]
        obtain ⟨ihC, ihG, ihI, ihL, ihU⟩ := ih st hInv hlen1
        exact ⟨by simpa only [idsReturned, hstep] using ihC,
          by simpa only [idsReturned, hstep] using ihG,
          by simpa only [runOps, hstep] using ihI,
          by simpa only [runOps, hstep] using ihL,
          by simp only [runOps, hstep, List.length_cons]; omega⟩
      | panics =>
        have hstep : stepOp st (.submit s r a f) = (st, none) := by
          simp [stepOp, hc]
        obtain ⟨ihC, ihG, ihI, ihL, ihU⟩ := ih st hInv hlen1
        exact ⟨by simpa only [idsReturned, hstep] using ihC,
          by simpa only [idsReturned, hstep] using ihG,
          by simpa only [runOps, hstep] using ihI,
          by simpa only [runOps, hstep] using ihL,
          by simp only [runOps, hstep, List.length_cons]; omega⟩
    | cancel send =>
      cases hc : Keeper.CancelSendToEthereum st send with
      | ok st1 =>
        have hstep : stepOp st (.cancel send) = (st1, none) := by
          simp [stepOp, hc]
        obtain ⟨hcnt, hreg, hpool⟩ := cancel_ok_shape _ _ _ hc
        have hInv1 : PoolInv st1 := by
          constructor
          · intro kv hkv
            rw [hpool] at hkv
            have h1 := hInv.1 kv (List.mem_of_mem_filter hkv)
            rw [hcnt]
            exact h1
          · have : poolIds st1 = (kvDelete st.pool
                (GetSendToEthereumKey send.id send.erc20Fee)).map (fun kv => kv.2.id) := by
              rw [poolIds, hpool]
            rw [this]
            exact ((List.filter_sublist _).map _).nodup hInv.2
        have hlen2 : st1.lastSendToEthereumID + rest.length < 2 ^ 64 := by
          rw [hcnt]
          omega
        obtain ⟨ihC, ihG, ihI, ihL, ihU⟩ := ih st1 hInv1 hlen2
        refine ⟨by simpa only [idsReturned, hstep] using ihC, ?_,
          by simpa only [runOps, hstep] using ihI, ?_, ?_⟩
        · simp only [idsReturned, hstep]
          intro i hi
          have := ihG i hi
          rw [hcnt] at this
          omega
        · simp only [runOps, hstep]
          rw [hcnt] at ihL
          omega
        · simp only [runOps, hstep, List.length_cons]
          rw [hcnt] at ihU
          omega
      | err e =>
        have hstep : stepOp st (.cancel send) = (st, none) := by
          simp [stepOp, hc]
        obtain ⟨ihC, ihG, ihI, ihL, ihU⟩ := ih st hInv hlen1
        exact ⟨by simpa only [idsReturned, hstep] using ihC,
          by simpa only [idsReturned, hstep] using ihG,
          by simpa only [runOps, hstep] using ihI,
          by simpa only [runOps, hstep] using ihL,
          by simp only [runOps, hstep, List.length_cons]; omega⟩
      | panics =>
        have hstep : stepOp st (.cancel send) = (st, none) := by
          simp [stepOp, hc]
        obtain ⟨ihC, ihG, ihI, ihL, ihU⟩ := ih st hInv hlen1
        exact ⟨by simpa only [idsReturned, hstep] using ihC,
          by simpa only [idsReturned, hstep] using ihG,
          by simpa only [runOps, hstep] using ihI,
          by simpa only [runOps, hstep] using ihL,
          by simp only [runOps, hstep, List.length_cons]; omega⟩

/-- C5 (amended): starting from genesis, for any sequence of fewer than `2^64`
submit/cancel operations, the ids returned by the successful submits are
strictly increasing (hence never repeat), the persisted counter never
decreases — in particular cancellation never decrements it — and at every
intermediate state at most one pending entry exists per id. -/
theorem pool_ids_strictly_increasing (ops : List PoolOp) (bank : Bank) (reg : List RegEntry)
    (hlen : ops.length < 2 ^ 64) :
    (idsReturned (genesisState bank reg) ops).Chain' (· < ·) ∧
    (idsReturned (genesisState bank reg) ops).Nodup ∧
    (∀ i : Nat, (runOps (genesisState bank reg) (ops.take i)).lastSendToEthereumID ≤
      (runOps (genesisState bank reg) (ops.take (i + 1))).lastSendToEthereumID) ∧
    (∀ i : Nat, (poolIds (runOps (genesisState bank reg) (ops.take i))).Nodup) := by
  have hg : PoolInv (genesisState bank reg) := genesis_poolInv bank reg
  have hg0 : (genesisState bank reg).lastSendToEthereumID = 0 := rfl
  have base := runOps_facts ops (genesisState bank reg) hg (by rw [hg0]; omega)
  have hpre : ∀ i : Nat, PoolInv (runOps (genesisState bank reg) (ops.take i)) ∧
      (runOps (genesisState bank reg) (ops.take i)).lastSendToEthereumID ≤
        (ops.take i).length := by
    intro i
    have hlt : (genesisState bank reg).lastSendToEthereumID + (ops.take i).length < 2 ^ 64 := by
      rw [hg0, List.length_take]
      omega
    have h := runOps_facts (ops.take i) (genesisState bank reg) hg hlt
    exact ⟨h.2.2.1, by rw [hg0] at h; omega⟩
  refine ⟨base.1, ?_, ?_, fun i => (hpre i).1.2⟩
  · exact List.Pairwise.imp (fun hlt => Nat.ne_of_lt hlt) (List.chain'_iff_pairwise.mp base.1)
  · intro i
    rw [List.take_succ, runOps_append]
    cases hoi : ops[i]? with
    | none => simp [runOps]
    | some op =>
      have hi : i < ops.length := List.getElem?_eq_some_iff.mp hoi |>.1
      have hp := hpre i
      have hlt : (runOps (genesisState bank reg) (ops.take i)).lastSendToEthereumID +
          [op].length < 2 ^ 64 := by
        have := hp.2
        rw [List.length_take] at this
        simp only [List.length_singleton]
        omega
      have h := runOps_facts [op] (runOps (genesisState bank reg) (ops.take i)) hp.1 hlt
      simpa using h.2.2.2.1

/-- Witness for C5's amended statement at a concrete three-operation
sequence. -/
theorem pool_ids_strictly_increasing_witness :
    (idsReturned (genesisState (fun _ _ => 0) ceReg) [ceOp, ceOp, ceOp]).Chain' (· < ·) ∧
    (idsReturned (genesisState (fun _ _ => 0) ceReg) [ceOp, ceOp, ceOp]).Nodup ∧
    (∀ i : Nat,
      (runOps (genesisState (fun _ _ => 0) ceReg) ([ceOp, ceOp, ceOp].take i)).lastSendToEthereumID ≤
      (runOps (genesisState (fun _ _ => 0) ceReg)
        ([ceOp, ceOp, ceOp].take (i + 1))).lastSendToEthereumID) ∧
    (∀ i : Nat,
      (poolIds (runOps (genesisState (fun _ _ => 0) ceReg) ([ceOp, ceOp, ceOp].take i))).Nodup) :=
  pool_ids_strictly_increasing [ceOp, ceOp, ceOp] (fun _ _ => 0) ceReg (by decide)

theorem ce_step (st : GravityState) (hreg : st.registry = ceReg) :
    (stepOp st ceOp).2 = some ((st.lastSendToEthereumID + 1) % 2 ^ 64) ∧
    (stepOp st ceOp).1.lastSendToEthereumID = (st.lastSendToEthereumID + 1) % 2 ^ 64 ∧
    (stepOp st ceOp).1.registry = ceReg := by
  have hAdd : Coin.Add ⟨"x", 0⟩ ⟨"x", 0⟩ = .ok ⟨"x", 0⟩ := by
    unfold Coin.Add
    simp
  have hSend : sendCoinsFromAccountToModule st.bank "alice" ⟨"x", 0⟩ =
      some (bankAfterSend st.bank "alice" ⟨"x", 0⟩) := sendToModule_ok _ _ _ (Nat.zero_le _)
  have hReg : DenomToERC20Lookup st.registry "x" = some (true, "0xcc") := by
    rw [hreg]
    rfl
  have hc : Keeper.CreateSendToEthereum st "alice" "0xef" ⟨"x", 0⟩ ⟨"x", 0⟩ =
      .ok ((st.lastSendToEthereumID + 1) % 2 ^ 64,
        SetUnbatchedSendToEthereum
          { st with bank := bankAfterSend st.bank "alice" ⟨"x", 0⟩,
                    lastSendToEthereumID := (st.lastSendToEthereumID + 1) % 2 ^ 64 }
          ⟨(st.lastSendToEthereumID + 1) % 2 ^ 64, "alice", "0xef", ⟨0, "0xcc"⟩,
           ⟨0, "0xcc"⟩⟩) := by
    simp only [Keeper.CreateSendToEthereum, hAdd, hReg, hSend]
    rfl
  refine ⟨?_, ?_, ?_⟩
  all_goals simp only [ceOp, stepOp, hc]
  all_goals try rfl
  all_goals exact hreg

theorem ce_ids (n : Nat) (st : GravityState) (hreg : st.registry = ceReg) :
    idsReturned st (List.replicate n ceOp) =
      (List.range n).map (fun k => (st.lastSendToEthereumID + k + 1) % 2 ^ 64) := by
  induction n generalizing st with
  | zero => rfl
  | succ m ih =>
    obtain ⟨h2, hcnt, hregeq⟩ := ce_step st hreg
    rw [List.replicate_succ]
    simp only [idsReturned, h2]
    rw [ih _ hregeq, hcnt, List.range_succ_eq_map]
    simp only [List.map_cons, List.map_map]
    refine congr_arg₂ List.cons (by omega) (List.map_congr_left fun k hk => ?_)
    simp only [Function.comp_apply]
    omega

/-- C5 counterexample: the uint64 id counter wraps.  In the concrete sequence
of `2^64 + 1` zero-amount submits from genesis, the first and the last submit
both return id `1`: ids are returned twice and are not strictly increasing,
refuting the claim over unbounded sequences. -/
theorem pool_ids_wrap_counterexample :
    (idsReturned ceGenesis (List.replicate (2 ^ 64 + 1) ceOp))[0]? = some 1 ∧
    (idsReturned ceGenesis (List.replicate (2 ^ 64 + 1) ceOp))[2 ^ 64]? = some 1 ∧
    ¬ (idsReturned ceGenesis (List.replicate (2 ^ 64 + 1) ceOp)).Nodup := by
  have h := ce_ids (2 ^ 64 + 1) ceGenesis rfl
  have hg : ceGenesis.lastSendToEthereumID = 0 := rfl
  rw [hg] at h
  have h0 : (idsReturned ceGenesis (List.replicate (2 ^ 64 + 1) ceOp))[0]? = some 1 := by
    rw [h, List.getElem?_map, List.getElem?_range (by omega)]
    simp
  have h1 : (idsReturned ceGenesis (List.replicate (2 ^ 64 + 1) ceOp))[2 ^ 64]? = some 1 := by
    rw [h, List.getElem?_map, List.getElem?_range (by omega)]
    simp
  refine ⟨h0, h1, ?_⟩
  intro hnd
  have hlen : 0 < (idsReturned ceGenesis (List.replicate (2 ^ 64 + 1) ceOp)).length := by
    rw [h]
    simp
  have := List.getElem?_inj hlen hnd (h0.trans h1.symm)
  omega
